import Mathlib

/-!
Verification development for the poker-helper repository.

The definitions below are shallow embeddings of the Python sources:
  * `src/src/ai/hand_evaluator.py`   (HandRank, HandEvaluator)
  * `src/src/core/ai_engine.py`      (EquityCalculator, AIAnalysisEngine)
  * `src/src/core/decision_manager.py` (DecisionManager._calculate_urgency)
  * `src/src/core/screen_capture.py` (ScreenCaptureEngine frame queue)
  * `src/src/vision/card_detector.py` (CardDetector detection fusion)

Python machine conventions kept in the embedding: dicts are modelled as
insertion-ordered association lists, `sorted` as insertion sort, Python
truthiness of an `Optional[int]` (`None` and `0` both falsy) as
`(·.getD 0) ≠ 0`, list slices beyond the length as `take`/`drop`, floats
as `ℚ`, and card-code bit operations as `Nat` bitwise operations.
-/

namespace PokerHelper

/-! ## Hand evaluator data model (`hand_evaluator.py`) -/

/-- Models `HandRank` dataclass: category 0-8, tie-break rank values, label. -/
structure HandRank where
  category : Nat
  rank_values : List Nat
  description : String
  deriving Repr, DecidableEq

/-- Python lexicographic list comparison `<` on lists of ints. -/
def listLtNat : List Nat → List Nat → Bool
  | [], [] => false
  | [], _ :: _ => true
  | _ :: _, [] => false
  | a :: as, b :: bs => if a < b then true else if b < a then false else listLtNat as bs

/-- Models `HandRank.__lt__`: compare category first, then the tie-break vector
lexicographically. -/
def hrLt (x y : HandRank) : Bool :=
  if x.category ≠ y.category then decide (x.category < y.category)
  else listLtNat x.rank_values y.rank_values

/-- Models `HandRank.__eq__`: equality of category and tie-break vector; the
description label is ignored. -/
def hrEq (x y : HandRank) : Bool :=
  x.category == y.category && x.rank_values == y.rank_values

/-- Models `HandEvaluator._rank_name`. -/
def rank_name (r : Nat) : String :=
  let names := ["2", "3", "4", "5", "6", "7", "8", "9", "T", "J", "Q", "K", "A"]
  if r < 13 then names.getD r "" else toString r

/-- Models `HandEvaluator._check_flush`: all cards share the suit bits, returning
the suit nibble, else `None`. -/
def check_flush (cards : List Nat) : Option Nat :=
  match cards with
  | [] => none
  | c :: rest =>
    if rest.all (fun d => d &&& 0xF000 == c &&& 0xF000) then
      some ((c &&& 0xF000) >>> 12)
    else none

/-- Ascending insertion of a value into a sorted list (models Python
`sorted`). -/
def insAsc (x : Nat) : List Nat → List Nat
  | [] => [x]
  | y :: ys => if x ≤ y then x :: y :: ys else y :: insAsc x ys

/-- Python `sorted(l)` (ascending). -/
def sortAsc (l : List Nat) : List Nat := l.foldr insAsc []

/-- Descending insertion (models Python `sorted(l, reverse=True)`). -/
def insDesc (x : Nat) : List Nat → List Nat
  | [] => [x]
  | y :: ys => if x ≥ y then x :: y :: ys else y :: insDesc x ys

/-- Python `sorted(l, reverse=True)` (descending). -/
def sortDesc (l : List Nat) : List Nat := l.foldr insDesc []

/-- The scan `for i in range(len(ranks)-4): if ranks[i+4]-ranks[i]==4:
return ranks[i+4]` over the sorted unique rank list. -/
def straightScan : List Nat → Option Nat
  | a :: b :: c :: d :: e :: rest =>
    if e - a == 4 then some e else straightScan (b :: c :: d :: e :: rest)
  | _ => none

/-- Models `HandEvaluator._check_straight`: sorted set of rank nibbles, window scan
for five consecutive ranks, then the wheel special case `[0,1,2,3,12] → 3`. -/
def check_straight (cards : List Nat) : Option Nat :=
  let ranks := sortAsc ((cards.map (· &&& 0xF)).dedup)
  if ranks.length < 5 then none
  else
    match straightScan ranks with
    | some h => some h
    | none => if ranks = [0, 1, 2, 3, 12] then some 3 else none

/-- Insertion-ordered counter update (Python dict `counts[rank] += 1`). -/
def insertCount : List (Nat × Nat) → Nat → List (Nat × Nat)
  | [], r => [(r, 1)]
  | (k, v) :: rest, r =>
    if k = r then (k, v + 1) :: rest else (k, v) :: insertCount rest r

/-- Models `HandEvaluator._count_ranks`: occurrence counts of each rank nibble, in
first-occurrence order (Python dict iteration order). -/
def count_ranks (cards : List Nat) : List (Nat × Nat) :=
  cards.foldl (fun acc c => insertCount acc (c &&& 0xF)) []

/-- Models `HandEvaluator._evaluate_5_cards`. Python truthiness of the
`Optional[int]` results of `_check_flush` / `_check_straight` (both `None`
and `0` are falsy) is rendered as `(·.getD 0) ≠ 0`. -/
def evaluate_5_cards (cards : List Nat) : HandRank :=
  let flushSuit := (check_flush cards).getD 0
  if flushSuit ≠ 0 then
    let straightHigh := (check_straight cards).getD 0
    if straightHigh ≠ 0 then
      ⟨8, [straightHigh], "Straight Flush, " ++ rank_name straightHigh ++ " high"⟩
    else
      let ranks := sortDesc (cards.map (· &&& 0xF))
      ⟨5, ranks, "Flush, " ++ rank_name (ranks.headD 0) ++ " high"⟩
  else
    let straightHigh := (check_straight cards).getD 0
    if straightHigh ≠ 0 then
      ⟨4, [straightHigh], "Straight, " ++ rank_name straightHigh ++ " high"⟩
    else
      let counts := count_ranks cards
      let quads := (counts.filter (fun p => p.2 == 4)).map (·.1)
      if quads ≠ [] then
        let kicker := ((counts.filter (fun p => p.2 ≠ 4)).map (·.1)).headD 0
        ⟨7, [quads.headD 0, kicker], "Four " ++ rank_name (quads.headD 0) ++ "s"⟩
      else
        let trips := (counts.filter (fun p => p.2 == 3)).map (·.1)
        let pairs := (counts.filter (fun p => p.2 == 2)).map (·.1)
        if trips ≠ [] ∧ pairs ≠ [] then
          ⟨6, [trips.headD 0, pairs.headD 0],
            "Full House, " ++ rank_name (trips.headD 0) ++ "s full of " ++
              rank_name (pairs.headD 0) ++ "s"⟩
        else if trips ≠ [] then
          let kickers := (sortDesc ((counts.filter (fun p => p.2 == 1)).map (·.1))).take 2
          ⟨3, trips.headD 0 :: kickers, "Three " ++ rank_name (trips.headD 0) ++ "s"⟩
        else if pairs.length ≥ 2 then
          let pairsSorted := (sortDesc pairs).take 2
          let kicker := (sortDesc ((counts.filter (fun p => p.2 == 1)).map (·.1))).headD 0
          ⟨2, pairsSorted ++ [kicker],
            "Two Pair, " ++ rank_name (pairsSorted.headD 0) ++ "s and " ++
              rank_name ((pairsSorted.drop 1).headD 0) ++ "s"⟩
        else if pairs.length = 1 then
          let kickers := (sortDesc ((counts.filter (fun p => p.2 == 1)).map (·.1))).take 3
          ⟨1, pairs.headD 0 :: kickers, "Pair of " ++ rank_name (pairs.headD 0) ++ "s"⟩
        else
          let ranks := sortDesc (cards.map (· &&& 0xF))
          ⟨0, ranks, rank_name (ranks.headD 0) ++ " high"⟩

/-- Models `itertools.combinations(l, n)` in itertools order. -/
def combos : Nat → List α → List (List α)
  | 0, _ => [[]]
  | _ + 1, [] => []
  | n + 1, x :: xs => (combos n xs).map (x :: ·) ++ combos (n + 1) xs

/-- One step of the `best_rank` accumulation loop shared by
`_evaluate_6_cards` and `_evaluate_7_cards`: Python `rank > best_rank`
dispatches to the reflected `best_rank.__lt__(rank)`, i.e. `hrLt best rank`. -/
def foldStep (best : Option HandRank) (c : List Nat) : Option HandRank :=
  let r := evaluate_5_cards c
  match best with
  | none => some r
  | some b => if hrLt b r then some r else some b

/-- The `best_rank` accumulation loop over all 5-card combinations. -/
def bestFold (combinations : List (List Nat)) : Option HandRank :=
  combinations.foldl foldStep none

/-- Models `HandEvaluator._evaluate_6_cards`. -/
def evaluate_6_cards (cards : List Nat) : Option HandRank :=
  bestFold (combos 5 cards)

/-- Models `HandEvaluator._evaluate_7_cards`. -/
def evaluate_7_cards (cards : List Nat) : Option HandRank :=
  bestFold (combos 5 cards)

/-! ## Card-string conversion (`HandEvaluator._init_card_map`,
`HandEvaluator.evaluate_hand`) -/

/-- The rank characters of `_init_card_map` in table order. -/
def rankChars : List Char := ['2', '3', '4', '5', '6', '7', '8', '9', 'T', 'J', 'Q', 'K', 'A']

/-- The suit characters of `_init_card_map` in table order. -/
def suitChars : List Char := ['s', 'h', 'd', 'c']

/-- Index of a character in a list, if present. -/
def idxOf? (c : Char) : List Char → Option Nat
  | [] => none
  | x :: xs => if x = c then some 0 else (idxOf? c xs).map (· + 1)

/-- Models `self.card_map.get(key, 0)` for a two-character card string, modelled as
a rank-char/suit-char pair: the dict built by `_init_card_map` has exactly
the keys rank-char ++ suit-char with value `i | (0x1000 << j)`. -/
def card_map_get (card : Char × Char) : Nat :=
  match idxOf? card.1 rankChars, idxOf? card.2 suitChars with
  | some i, some j => i ||| (0x1000 <<< j)
  | _, _ => 0

/-- Python `str.upper()` on a two-character card string. -/
def upperCard (card : Char × Char) : Char × Char :=
  (card.1.toUpper, card.2.toUpper)

/-- Models `HandEvaluator.evaluate_hand` on card strings (each card modelled as its
rank/suit character pair): `ValueError` for fewer than 5 cards becomes
`Except.error`; the 6- and 7-card paths return the `best_rank` fold value. -/
def evaluate_hand (cards : List (Char × Char)) : Except String (Option HandRank) :=
  if cards.length < 5 then .error "Need at least 5 cards to evaluate"
  else
    let card_ints := cards.map (fun c => card_map_get (upperCard c))
    if cards.length = 5 then .ok (some (evaluate_5_cards card_ints))
    else if cards.length = 6 then .ok (evaluate_6_cards card_ints)
    else if cards.length = 7 then .ok (evaluate_7_cards card_ints)
    else .ok (evaluate_7_cards (card_ints.take 7))

/-! ## AI engine data model (`ai_engine.py`) -/

/-- Models `ActionType` enum. -/
inductive ActionType where
  | fold | check | call | bet | raiseBet | allIn
  deriving Repr, DecidableEq

/-- The `Card` dataclass from `computer_vision.py` as consumed by
`ai_engine.py` (rank/suit characters plus detection metadata). -/
structure CardCV where
  rank : Char
  suit : Char
  confidence : ℚ
  position : Int × Int
  boundingBox : Int × Int × Int × Int
  deriving Repr, DecidableEq

/-- Models `Card.card_string`, modelled as the rank/suit character pair. -/
def cardStringOf (c : CardCV) : Char × Char := (c.rank, c.suit)

/-- The `Card(card[0], card[1], 1.0, (0, 0), (0, 0, 0, 0))` constructor used
when dealing simulated cards. -/
def mkSimCard (c : Char × Char) : CardCV :=
  ⟨c.1, c.2, 1, (0, 0), (0, 0, 0, 0)⟩

/-- Rank-character conversion in `EquityCalculator._evaluate_hand`:
`A→14, K→13, Q→12, J→11, T→10`, otherwise `int(rank)`. -/
def rankValue (r : Char) : Nat :=
  if r = 'A' then 14
  else if r = 'K' then 13
  else if r = 'Q' then 12
  else if r = 'J' then 11
  else if r = 'T' then 10
  else r.toNat - 48

/-- Insertion-ordered counter update over an arbitrary key type (Python
dict `counts[k] = counts.get(k, 0) + 1`). -/
def insertCountKey [DecidableEq α] : List (α × Nat) → α → List (α × Nat)
  | [], k => [(k, 1)]
  | (k', v) :: rest, k =>
    if k' = k then (k', v + 1) :: rest else (k', v) :: insertCountKey rest k

/-- Python `max(l)` for a nonempty list of naturals (used only under guards
that make the list nonempty). -/
def listMax (l : List Nat) : Nat := l.foldl max 0

/-- The window scan of `EquityCalculator._check_straight` over a descending
rank list: `ranks[i] - ranks[i+4] == 4`. -/
def aiStraightScan : List Nat → Bool
  | a :: b :: c :: d :: e :: rest =>
    if a - e == 4 then true else aiStraightScan (b :: c :: d :: e :: rest)
  | _ => false

/-- Models `EquityCalculator._check_straight` (takes the descending unique rank
list; wheel check `{14,5,4,3,2} ⊆ set(ranks)`). -/
def aiCheckStraight (ranks : List Nat) : Bool :=
  if ranks.length < 5 then false
  else if aiStraightScan ranks then true
  else if [14, 5, 4, 3, 2].all (· ∈ ranks) then true
  else false

/-- Models `EquityCalculator._evaluate_hand`: the simplified integer hand scorer
(higher = stronger) used inside the Monte Carlo trials. -/
def scoreHand (allCards : List CardCV) : Nat :=
  let rankValues := allCards.map (fun c => rankValue c.rank)
  let rankCounts := rankValues.foldl insertCountKey ([] : List (Nat × Nat))
  let suitCounts := (allCards.map (·.suit)).foldl insertCountKey ([] : List (Char × Nat))
  let isFlush := suitCounts.any (fun p => p.2 ≥ 5)
  let uniqueRanks := sortDesc rankValues.dedup
  let isStraight := aiCheckStraight uniqueRanks
  let counts := rankCounts.map (·.2)
  let pairCounts := sortDesc (counts.filter (· ≥ 2))
  if isStraight ∧ isFlush then 8000 + listMax uniqueRanks
  else if counts.contains 4 then
    7000 + listMax ((rankCounts.filter (fun p => p.2 = 4)).map (·.1))
  else if counts.contains 3 ∧ counts.contains 2 then 6000
  else if isFlush then 5000 + listMax uniqueRanks
  else if isStraight then 4000 + listMax uniqueRanks
  else if counts.contains 3 then
    3000 + listMax ((rankCounts.filter (fun p => p.2 = 3)).map (·.1))
  else if pairCounts.length ≥ 2 then 2000
  else if counts.contains 2 then
    1000 + listMax ((rankCounts.filter (fun p => p.2 = 2)).map (·.1))
  else listMax uniqueRanks

/-- Models `EquityCalculator._create_deck`: 52 card strings, ranks A..2 by suits
h, d, c, s. -/
def create_deck : List (Char × Char) :=
  (['A', 'K', 'Q', 'J', 'T', '9', '8', '7', '6', '5', '4', '3', '2'].map
    (fun r => (['h', 'd', 'c', 's'].map (fun s => (r, s))))).flatten

/-- The `available_cards` list of `calculate_equity`: the deck minus the
known cards (player's hole cards and current community cards). -/
def available_cards (holeCards communityCards : List CardCV) : List (Char × Char) :=
  create_deck.filter (fun c => c ∉ (holeCards ++ communityCards).map cardStringOf)

/-- The opponent hands dealt in one trial: `num_opponents` consecutive
two-card slices of the shuffled simulation deck. -/
def trialOpponents (numOpponents : Nat) (simDeck : List (Char × Char)) :
    List (List (Char × Char)) :=
  (List.range numOpponents).map (fun k => ((simDeck.drop (2 * k)).take 2))

/-- The board used in one trial: the known community cards extended to five
cards from the simulation deck (after the opponents' cards). -/
def trialBoard (communityCards : List CardCV) (numOpponents : Nat)
    (simDeck : List (Char × Char)) : List CardCV :=
  communityCards ++
    (((simDeck.drop (2 * numOpponents)).take (5 - communityCards.length)).map mkSimCard)

/-- The player's simplified score in one trial. -/
def trialPlayerScore (holeCards communityCards : List CardCV) (numOpponents : Nat)
    (simDeck : List (Char × Char)) : Nat :=
  scoreHand (holeCards ++ trialBoard communityCards numOpponents simDeck)

/-- Models `max(opponent_strengths) if opponent_strengths else 0` in one trial. -/
def trialMaxOpponentScore (communityCards : List CardCV) (numOpponents : Nat)
    (simDeck : List (Char × Char)) : Nat :=
  let strengths := (trialOpponents numOpponents simDeck).map
    (fun opp => scoreHand (opp.map mkSimCard ++ trialBoard communityCards numOpponents simDeck))
  if strengths.isEmpty then 0 else listMax strengths

/-- One Monte Carlo trial of `EquityCalculator.calculate_equity`, returning
the `(wins, ties)` increments. The shuffled simulation deck — the result of
`np.random.shuffle` on a copy of `available_cards` — is passed in
explicitly; it is the trial's only source of randomness. -/
def simTrial (holeCards communityCards : List CardCV) (numOpponents : Nat)
    (simDeck : List (Char × Char)) : Nat × Nat :=
  let player := trialPlayerScore holeCards communityCards numOpponents simDeck
  let maxOpp := trialMaxOpponentScore communityCards numOpponents simDeck
  if player > maxOpp then (1, 0)
  else if player = maxOpp then (0, 1)
  else (0, 0)

/-- Models `EquityCalculator.calculate_equity`, with the per-trial shuffles of
`available_cards` supplied as the list `shuffles` (so
`num_simulations = shuffles.length`). Degenerate input
(`len(hole_cards) != 2`) returns 0.0 without simulating. -/
def calculate_equity (holeCards communityCards : List CardCV)
    (numOpponents : Nat) (shuffles : List (List (Char × Char))) : ℚ :=
  if holeCards.length ≠ 2 then 0
  else
    let results := shuffles.map (simTrial holeCards communityCards numOpponents)
    let wins : Nat := (results.map (·.1)).sum
    let ties : Nat := (results.map (·.2)).sum
    ((wins : ℚ) + (ties : ℚ) * (1 / 2)) / (shuffles.length : ℚ)

/-- Proper card-code of a rank/suit character pair under the
`hand_evaluator.py` card table (no upper-casing): the integer the section
4.2 engine expects for a well-formed card. -/
def cardIntOf (c : Char × Char) : Nat := card_map_get c

/-- The section-4.2 HandRank of a player's seven cards (hole plus board),
evaluated by the `hand_evaluator.py` engine on properly encoded cards.
It is used to compare the code's trial outcomes against the claim that
trials are scored by the HandRank total order. -/
def handRankOfCards (cards : List CardCV) : Option HandRank :=
  evaluate_7_cards (cards.map (fun c => cardIntOf (cardStringOf c)))

/-- Models `Recommendation` dataclass. -/
structure Recommendation where
  action : ActionType
  amount : Option ℚ := none
  confidence : ℚ := 0
  reasoning : String := ""
  alternativeActions : List (ActionType × ℚ × ℚ) := []
  expectedValue : ℚ := 0
  riskAssessment : String := ""
  deriving Repr, DecidableEq

/-- Models `AIAnalysisEngine._generate_recommendation`. Of its inputs only
`hand_strength.equity` and `pot_odds` are consulted, so the embedding takes
exactly those two. -/
def generate_recommendation (equity potOdds : ℚ) : Recommendation :=
  let (action, confidence, reasoning) :=
    if equity > 7 / 10 then (ActionType.bet, (9 : ℚ) / 10, "Strong hand - value betting")
    else if equity > 5 / 10 then (ActionType.call, (7 : ℚ) / 10, "Medium strength - calling")
    else if potOdds > 3 / 10 then (ActionType.call, (6 : ℚ) / 10, "Good pot odds - calling")
    else (ActionType.fold, (8 : ℚ) / 10, "Weak hand - folding")
  { action := action
    confidence := confidence
    reasoning := reasoning
    expectedValue := equity - 5 / 10
    riskAssessment := if confidence > 7 / 10 then "Medium" else "High" }

/-- Models `HandStrength` dataclass. -/
structure HandStrength where
  rawStrength : ℚ
  equity : ℚ
  potential : ℚ
  category : String
  description : String
  deriving Repr, DecidableEq

/-- Models `OpponentModel` dataclass. -/
structure OpponentModel where
  playerId : String
  vpip : ℚ
  pfr : ℚ
  aggressionFactor : ℚ
  cBetFrequency : ℚ
  foldToCBet : ℚ
  handsObserved : Nat
  lastUpdated : ℚ
  deriving Repr, DecidableEq

/-- Models `HandAnalysis` dataclass. -/
structure HandAnalysis where
  handStrength : HandStrength
  potOdds : ℚ
  impliedOdds : ℚ
  positionAdvantage : ℚ
  opponentModels : List OpponentModel
  recommendation : Recommendation
  gtoStrategy : List (String × ℚ)
  exploitativeAdjustments : List (String × ℚ)
  analysisTimeMs : ℚ
  deriving Repr, DecidableEq

/-- Models `AIAnalysisEngine.analyze_hand`: the `try` body (steps 1-7 of the
analysis/synthesis cycle, which may raise) is passed as an `Except` value;
the `except Exception` arm builds the safe-fold `HandAnalysis` exactly as
in the source. `elapsedMs` stands for the measured wall-clock time. -/
def analyze_hand (body : Except String HandAnalysis) (elapsedMs : ℚ) : HandAnalysis :=
  match body with
  | .ok analysis => analysis
  | .error e =>
    { handStrength := ⟨0, 0, 0, "unknown", "Analysis error"⟩
      potOdds := 0
      impliedOdds := 0
      positionAdvantage := 0
      opponentModels := []
      recommendation :=
        { action := ActionType.fold
          confidence := 1
          reasoning := "Analysis error: " ++ e }
      gtoStrategy := []
      exploitativeAdjustments := []
      analysisTimeMs := elapsedMs }

/-! ## Decision manager (`decision_manager.py`) -/

/-- Models `UrgencyLevel` enum. -/
inductive UrgencyLevel where
  | low | medium | high | critical
  deriving Repr, DecidableEq

/-- Models `DecisionManager._calculate_urgency`. Of the analysis it consults the
recommended action, `hand_strength.equity`, the recommendation confidence
and the pot odds, so the embedding takes exactly those four. -/
def calculate_urgency (action : ActionType) (equity confidence potOdds : ℚ) :
    UrgencyLevel :=
  if action = ActionType.allIn ∨ equity > 95 / 100 ∨ equity < 5 / 100 then
    UrgencyLevel.high
  else if confidence > 8 / 10 ∨ potOdds > 4 / 10 then UrgencyLevel.medium
  else if confidence > 6 / 10 then UrgencyLevel.low
  else UrgencyLevel.critical

/-! ## Screen capture frame queue (`screen_capture.py`) -/

/-- Models `CaptureRegion` dataclass. -/
structure CaptureRegion where
  x : Int
  y : Int
  width : Int
  height : Int
  monitor : Int := 0
  deriving Repr, DecidableEq

/-- Models `CaptureResult` dataclass; the numpy image is abstracted to an
identifier. -/
structure CaptureResult where
  image : Option Nat
  timestamp : ℚ
  region : CaptureRegion
  success : Bool
  errorMessage : Option String := none
  deriving Repr, DecidableEq

/-- Models `queue.Queue.put_nowait`: `none` models the `queue.Full` exception.
A `maxsize` of zero means an infinite queue, as in Python. -/
def put_nowait (q : List α) (maxsize : Nat) (r : α) : Option (List α) :=
  if maxsize = 0 ∨ q.length < maxsize then some (q ++ [r]) else none

/-- Models `queue.Queue.get_nowait`: `none` models the `queue.Empty` exception. -/
def get_nowait (q : List α) : Option (α × List α) :=
  match q with
  | [] => none
  | x :: xs => some (x, xs)

/-- The enqueue step of `ScreenCaptureEngine._capture_loop`: try
`put_nowait`; on `queue.Full` remove the oldest frame and retry, with
`queue.Empty` silently ignored. -/
def enqueue_frame (q : List CaptureResult) (maxsize : Nat) (r : CaptureResult) :
    List CaptureResult :=
  match put_nowait q maxsize r with
  | some q' => q'
  | none =>
    match get_nowait q with
    | none => q
    | some (_, q') =>
      match put_nowait q' maxsize r with
      | some q'' => q''
      | none => q'

/-- Models `ScreenCaptureEngine.get_latest_frame`: a non-blocking `get_nowait`
with `queue.Empty` mapped to `None` ("no frame available"); returns the
frame obtained (if any) with the remaining queue state. -/
def get_latest_frame (q : List CaptureResult) : Option CaptureResult × List CaptureResult :=
  match get_nowait q with
  | none => (none, q)
  | some (r, q') => (some r, q')

/-! ## Card detection fusion (`card_detector.py`) -/

/-- Models `CardDetectionResult` dataclass (pixel centers are non-negative). -/
structure CardDetectionResult where
  rank : Char
  suit : Char
  confidence : ℚ
  position : Nat × Nat
  boundingBox : Nat × Nat × Nat × Nat
  detectionMethod : String
  deriving Repr, DecidableEq

/-- Models `CardDetectionResult.card_string` as the rank/suit pair. -/
def detCardString (d : CardDetectionResult) : Char × Char := (d.rank, d.suit)

/-- The agreement test of `CardDetector._merge_detections`: same card
string and centers within the 50-pixel proximity threshold on both axes. -/
def detectionAgrees (d e : CardDetectionResult) : Bool :=
  detCardString d = detCardString e ∧
    ((d.position.1 : Int) - (e.position.1 : Int)).natAbs < 50 ∧
    ((d.position.2 : Int) - (e.position.2 : Int)).natAbs < 50

/-- Append the detection to the first group containing a member it agrees
with (`none` when no group matches). -/
def addToFirstGroup (d : CardDetectionResult) :
    List (List CardDetectionResult) → Option (List (List CardDetectionResult))
  | [] => none
  | g :: gs =>
    if g.any (fun e => detectionAgrees d e) then some ((g ++ [d]) :: gs)
    else (addToFirstGroup d gs).map (g :: ·)

/-- One step of the grouping loop of `_merge_detections`. -/
def insertDetection (groups : List (List CardDetectionResult))
    (d : CardDetectionResult) : List (List CardDetectionResult) :=
  match addToFirstGroup d groups with
  | some gs => gs
  | none => groups ++ [[d]]

/-- The grouping phase of `CardDetector._merge_detections`. -/
def buildGroups (detections : List CardDetectionResult) :
    List (List CardDetectionResult) :=
  detections.foldl insertDetection []

/-- Python `max(group, key=lambda x: x.confidence)`: the first member of
maximal confidence. -/
def maxByConfidence : List CardDetectionResult → Option CardDetectionResult
  | [] => none
  | d :: ds => some (ds.foldl (fun b x => if x.confidence > b.confidence then x else b) d)

/-- Models `CardDetector._create_consensus_detection` with the default
`hybrid_confidence_boost = 0.1`. Python's `int(sum/len)` on non-negative
pixel sums is floor division. -/
def create_consensus_detection (group : List CardDetectionResult) :
    Option CardDetectionResult :=
  match maxByConfidence group with
  | none => none
  | some best =>
    let n := group.length
    let avgX := (group.map (·.position.1)).sum / n
    let avgY := (group.map (·.position.2)).sum / n
    let boosted := min 1 (best.confidence + ((n - 1 : Nat) : ℚ) * (1 / 10))
    let methods := (group.map (·.detectionMethod)).dedup
    let method := if methods.length > 1 then "hybrid" else best.detectionMethod
    some
      { rank := best.rank
        suit := best.suit
        confidence := boosted
        position := (avgX, avgY)
        boundingBox := best.boundingBox
        detectionMethod := method }

/-- Models `CardDetector._merge_detections`: group, then pass singleton groups
through unchanged and fuse every larger group into one consensus
detection. -/
def merge_detections (detections : List CardDetectionResult) :
    List CardDetectionResult :=
  if detections = [] then []
  else
    (buildGroups detections).filterMap
      (fun g => if g.length = 1 then g.head? else create_consensus_detection g)

/-! ## Definitions for the claim statements -/

/-- A card string in the documented rank+lowercase-suit format
(e.g. `'Ah'`, `'Kd'`): rank character from the table, lowercase suit. -/
def documentedCard (c : Char × Char) : Prop :=
  c.1 ∈ rankChars ∧ c.2 ∈ suitChars

instance (c : Char × Char) : Decidable (documentedCard c) := by
  unfold documentedCard; infer_instance

/-- Card encoding of `_init_card_map`: rank index in bits 0-3, suit bit
`0x1000 << j`. -/
def cardCode (r j : Nat) : Nat := r ||| (0x1000 <<< j)

/-- Modelled from the spec (section 4.3, steps 4-5, as asserted by the
claim): one trial scored by the section-4.2 HandRank engine — the player
wins iff their HandRank is strictly greatest, and a shared maximum counts
as a tie. Used only to compare the code's trial scoring against the
claim. -/
def specTrialViaHandRank (holeCards communityCards : List CardCV)
    (numOpponents : Nat) (simDeck : List (Char × Char)) : Nat × Nat :=
  let board := trialBoard communityCards numOpponents simDeck
  let player := (handRankOfCards (holeCards ++ board)).getD ⟨0, [], ""⟩
  let oppRanks := (trialOpponents numOpponents simDeck).map
    (fun opp => (handRankOfCards (opp.map mkSimCard ++ board)).getD ⟨0, [], ""⟩)
  if oppRanks.all (fun o => hrLt o player) then (1, 0)
  else if oppRanks.all (fun o => !hrLt player o) then (0, 1)
  else (0, 0)

/-- Modelled from the spec: the equity formula of section 4.3 with trials
scored by the HandRank engine (`specTrialViaHandRank`) instead of the
code's simplified integer scorer. -/
def equityPerSpecHandRank (holeCards communityCards : List CardCV)
    (numOpponents : Nat) (shuffles : List (List (Char × Char))) : ℚ :=
  if holeCards.length ≠ 2 then 0
  else
    let results := shuffles.map (specTrialViaHandRank holeCards communityCards numOpponents)
    let wins : Nat := (results.map (·.1)).sum
    let ties : Nat := (results.map (·.2)).sum
    ((wins : ℚ) + (ties : ℚ) * (1 / 2)) / (shuffles.length : ℚ)

/-- Concrete hole cards for the equity scenario: A♠ A♥. -/
def c2Hole : List CardCV :=
  [⟨'A', 's', 1, (0, 0), (0, 0, 0, 0)⟩, ⟨'A', 'h', 1, (0, 0), (0, 0, 0, 0)⟩]

/-- Concrete community cards for the equity scenario: A♦ K♣ K♠ 2♥ (four
known board cards). -/
def c2Community : List CardCV :=
  [⟨'A', 'd', 1, (0, 0), (0, 0, 0, 0)⟩, ⟨'K', 'c', 1, (0, 0), (0, 0, 0, 0)⟩,
   ⟨'K', 's', 1, (0, 0), (0, 0, 0, 0)⟩, ⟨'2', 'h', 1, (0, 0), (0, 0, 0, 0)⟩]

/-- A concrete shuffle of the 46 available cards: the opponent is dealt
2♠ 2♦ and the river is 7♦; the rest of the deck follows in deck order. -/
def c2Shuffle : List (Char × Char) :=
  [('2', 's'), ('2', 'd'), ('7', 'd')] ++
    (available_cards c2Hole c2Community).filter
      (fun c => c ≠ ('2', 's') ∧ c ≠ ('2', 'd') ∧ c ≠ ('7', 'd'))

/-- A concrete template-strategy detection of K♦ used as a witness input. -/
def c7d1 : CardDetectionResult := ⟨'K', 'd', 3 / 4, (10, 20), (0, 0, 0, 0), "template"⟩

/-- A concrete yolo-strategy detection of K♦ used as a witness input. -/
def c7d2 : CardDetectionResult := ⟨'K', 'd', 1 / 2, (14, 20), (0, 0, 0, 0), "yolo"⟩

/-! ## Order-theoretic lemmas about the `HandRank` comparison -/

theorem listLtNat_irrefl (l : List Nat) : listLtNat l l = false := by
  induction l with
  | nil => rfl
  | cons a as ih => simp [listLtNat, ih]

theorem listLtNat_asymm : ∀ (a b : List Nat),
    listLtNat a b = true → listLtNat b a = false
  | [], [] => by simp [listLtNat]
  | [], _ :: _ => by simp [listLtNat]
  | _ :: _, [] => by simp [listLtNat]
  | a :: as, b :: bs => by
    simp only [listLtNat]
    intro h
    split_ifs at h ⊢ <;> first
      | rfl
      | omega
      | exact listLtNat_asymm as bs h

theorem listLtNat_trans : ∀ (a b c : List Nat),
    listLtNat a b = true → listLtNat b c = true → listLtNat a c = true
  | [], [], _ => by simp [listLtNat]
  | [], _ :: _, [] => by simp [listLtNat]
  | [], _ :: _, _ :: _ => by simp [listLtNat]
  | _ :: _, [], _ => by simp [listLtNat]
  | _ :: _, _ :: _, [] => by simp [listLtNat]
  | a :: as, b :: bs, c :: cs => by
    simp only [listLtNat]
    intro h1 h2
    split_ifs at h1 h2 ⊢ <;> first
      | rfl
      | omega
      | exact listLtNat_trans as bs cs h1 h2

theorem listLtNat_trich : ∀ (a b : List Nat),
    listLtNat a b = true ∨ listLtNat b a = true ∨ a = b
  | [], [] => by simp [listLtNat]
  | [], _ :: _ => by simp [listLtNat]
  | _ :: _, [] => by simp [listLtNat]
  | a :: as, b :: bs => by
    rcases Nat.lt_trichotomy a b with h | h | h
    · exact Or.inl (by simp [listLtNat, h])
    · rcases listLtNat_trich as bs with h' | h' | h'
      · exact Or.inl (by simp [listLtNat, h, h'])
      · exact Or.inr (Or.inl (by simp [listLtNat, h, h']))
      · exact Or.inr (Or.inr (by simp [h, h']))
    · exact Or.inr (Or.inl (by simp [listLtNat, h]))

theorem hrLt_irrefl (x : HandRank) : hrLt x x = false := by
  simp [hrLt, listLtNat_irrefl]

theorem hrLt_asymm (x y : HandRank) (h : hrLt x y = true) : hrLt y x = false := by
  by_cases hc : x.category = y.category
  · simp [hrLt, hc] at h ⊢
    exact listLtNat_asymm _ _ h
  · simp [hrLt, hc, Ne.symm hc] at h ⊢
    omega

theorem hrLt_trans (x y z : HandRank) (h1 : hrLt x y = true)
    (h2 : hrLt y z = true) : hrLt x z = true := by
  by_cases hxy : x.category = y.category
  · by_cases hyz : y.category = z.category
    · have hxz : x.category = z.category := hxy.trans hyz
      simp [hrLt, hxy] at h1
      simp [hrLt, hyz] at h2
      simp [hrLt, hxz]
      exact listLtNat_trans _ _ _ h1 h2
    · have hxz : x.category ≠ z.category := by rw [hxy]; exact hyz
      simp [hrLt, hyz] at h2
      simp [hrLt, hxz]
      omega
  · by_cases hyz : y.category = z.category
    · have hxz : x.category ≠ z.category := by rw [← hyz]; exact hxy
      simp [hrLt, hxy] at h1
      simp [hrLt, hxz]
      omega
    · simp [hrLt, hxy] at h1
      simp [hrLt, hyz] at h2
      have hxz : x.category ≠ z.category := by omega
      simp [hrLt, hxz]
      omega

theorem hrLt_trich (x y : HandRank) :
    hrLt x y = true ∨ hrLt y x = true ∨
      (x.category = y.category ∧ x.rank_values = y.rank_values) := by
  unfold hrLt
  by_cases hc : x.category = y.category
  · rcases listLtNat_trich x.rank_values y.rank_values with h | h | h
    · exact Or.inl (by simp [hc, h])
    · exact Or.inr (Or.inl (by simp [hc, h]))
    · exact Or.inr (Or.inr ⟨hc, h⟩)
  · rcases Nat.lt_or_ge x.category y.category with h | h
    · exact Or.inl (by simp [hc, h])
    · have h' : y.category < x.category := by omega
      exact Or.inr (Or.inl (by simp [Ne.symm hc, h']))

theorem hrLt_congr_right (x a b : HandRank) (h1 : a.category = b.category)
    (h2 : a.rank_values = b.rank_values) : hrLt x a = hrLt x b := by
  unfold hrLt
  rw [h1, h2]

/-- The invariant of the `best_rank` fold, with a running best value. -/
theorem bestFold_go : ∀ (l : List (List Nat)) (b : HandRank),
    ∃ hr, l.foldl foldStep (some b) = some hr ∧
      (hr = b ∨ ∃ c ∈ l, evaluate_5_cards c = hr) ∧
      hrLt hr b = false ∧
      ∀ c ∈ l, hrLt hr (evaluate_5_cards c) = false := by
  intro l
  induction l with
  | nil =>
    intro b
    exact ⟨b, rfl, Or.inl rfl, hrLt_irrefl b, by simp⟩
  | cons c cs ih =>
    intro b
    by_cases h : hrLt b (evaluate_5_cards c) = true
    · obtain ⟨hr, hfold, hmem, hge, hall⟩ := ih (evaluate_5_cards c)
      refine ⟨hr, ?_, ?_, ?_, ?_⟩
      · simpa [foldStep, h] using hfold
      · rcases hmem with rfl | ⟨c', hc', he⟩
        · exact Or.inr ⟨c, List.mem_cons_self c cs, rfl⟩
        · exact Or.inr ⟨c', List.mem_cons_of_mem c hc', he⟩
      · cases hhb : hrLt hr b with
        | false => rfl
        | true =>
          have := hrLt_trans hr b (evaluate_5_cards c) hhb h
          simp [hge] at this
      · intro x hx
        rcases List.mem_cons.mp hx with rfl | hx'
        · exact hge
        · exact hall x hx'
    · obtain ⟨hr, hfold, hmem, hge, hall⟩ := ih b
      refine ⟨hr, ?_, ?_, hge, ?_⟩
      · simpa [foldStep, h] using hfold
      · rcases hmem with rfl | ⟨c', hc', he⟩
        · exact Or.inl rfl
        · exact Or.inr ⟨c', List.mem_cons_of_mem c hc', he⟩
      · intro x hx
        rcases List.mem_cons.mp hx with rfl | hx'
        · cases hhe : hrLt hr (evaluate_5_cards x) with
          | false => rfl
          | true =>
            rcases hrLt_trich b (evaluate_5_cards x) with hbe | heb | hfe
            · simp [hbe] at h
            · have := hrLt_trans hr (evaluate_5_cards x) b hhe heb
              simp [hge] at this
            · have := hrLt_congr_right hr b (evaluate_5_cards x) hfe.1 hfe.2
              rw [← this] at hhe
              simp [hge] at hhe
        · exact hall x hx'

/-- Enumeration count: `combos n l` has `C(|l|, n)` elements. -/
theorem combos_length : ∀ (l : List α) (n : Nat),
    (combos n l).length = l.length.choose n
  | _, 0 => by simp [combos]
  | [], _ + 1 => by simp [combos]
  | x :: xs, n + 1 => by
    simp [combos, combos_length xs n, combos_length xs (n + 1),
      Nat.choose_succ_succ]

/-- Behavior of `bestFold` on a nonempty combination list: the result is
one of the 5-card evaluations and is greatest under the `HandRank` order. -/
theorem bestFold_spec (l : List (List Nat)) (hne : l ≠ []) :
    ∃ hr, bestFold l = some hr ∧
      (∃ c ∈ l, evaluate_5_cards c = hr) ∧
      ∀ c ∈ l, hrLt hr (evaluate_5_cards c) = false := by
  match l, hne with
  | c :: cs, _ =>
    obtain ⟨hr, hfold, hmem, hge, hall⟩ := bestFold_go cs (evaluate_5_cards c)
    refine ⟨hr, ?_, ?_, ?_⟩
    · simpa [bestFold, foldStep] using hfold
    · rcases hmem with rfl | ⟨c', hc', he⟩
      · exact ⟨c, List.mem_cons_self c cs, rfl⟩
      · exact ⟨c', List.mem_cons_of_mem c hc', he⟩
    · intro x hx
      rcases List.mem_cons.mp hx with rfl | hx'
      · exact hge
      · exact hall x hx'

/-! ## Auxiliary facts for the card-string claims -/

theorem idxOf_upper_suit_none (s : Char) (hs : s ∈ suitChars) :
    idxOf? s.toUpper suitChars = none := by
  simp only [suitChars, List.mem_cons, List.not_mem_nil, or_false] at hs
  rcases hs with rfl | rfl | rfl | rfl <;> decide

theorem card_map_get_upper_eq_zero (c : Char × Char) (hc : documentedCard c) :
    card_map_get (upperCard c) = 0 := by
  have h2 : idxOf? (c.2.toUpper) suitChars = none := idxOf_upper_suit_none c.2 hc.2
  unfold card_map_get upperCard
  simp only
  rw [h2]
  cases idxOf? c.1.toUpper rankChars <;> rfl

theorem map_documented_eq_replicate (l : List (Char × Char))
    (h : ∀ x ∈ l, documentedCard x) :
    l.map (fun c => card_map_get (upperCard c)) = List.replicate l.length 0 := by
  induction l with
  | nil => rfl
  | cons x xs ih =>
    simp only [List.map_cons, List.length_cons, List.replicate_succ]
    rw [card_map_get_upper_eq_zero x (h x (List.mem_cons_self x xs)),
      ih (fun y hy => h y (List.mem_cons_of_mem x hy))]

/-! ## Claim theorems -/

/-- C1: `evaluate_hand` upper-cases each card string before looking it up in
`card_map`, whose keys use lowercase suit letters, and `dict.get(·, 0)`
silently encodes every unrecognized string as 0; hence any two 5-card
inputs in the documented rank+lowercase-suit format evaluate to the same
`HandRank` (the all-zero high-card rank) — the result is independent of the
cards passed. -/
theorem evaluate_hand_constant_on_documented_cards
    (c1 c2 : List (Char × Char))
    (h1 : ∀ x ∈ c1, documentedCard x) (h2 : ∀ x ∈ c2, documentedCard x)
    (hl1 : c1.length = 5) (hl2 : c2.length = 5) :
    evaluate_hand c1 = evaluate_hand c2 ∧
    evaluate_hand c1 = .ok (some ⟨0, [0, 0, 0, 0, 0], "2 high"⟩) := by
  have key : ∀ (l : List (Char × Char)), (∀ x ∈ l, documentedCard x) →
      l.length = 5 →
      evaluate_hand l = .ok (some (evaluate_5_cards (List.replicate 5 0))) := by
    intro l hdoc hlen
    unfold evaluate_hand
    rw [map_documented_eq_replicate l hdoc, hlen]
    norm_num
  have hval : evaluate_5_cards (List.replicate 5 0) =
      ⟨0, [0, 0, 0, 0, 0], "2 high"⟩ := by decide
  refine ⟨?_, ?_⟩
  · rw [key c1 h1 hl1, key c2 h2 hl2]
  · rw [key c1 h1 hl1, hval]

/-- Witness for C1 at two concrete documented 5-card hands (a would-be
royal-flush board and an unrelated low hand). -/
theorem evaluate_hand_constant_on_documented_cards_witness :
    evaluate_hand [('A', 'h'), ('K', 'd'), ('Q', 'c'), ('J', 's'), ('T', 'c')] =
      evaluate_hand [('2', 'h'), ('7', 'd'), ('4', 'c'), ('5', 's'), ('9', 'c')] ∧
    evaluate_hand [('A', 'h'), ('K', 'd'), ('Q', 'c'), ('J', 's'), ('T', 'c')] =
      .ok (some ⟨0, [0, 0, 0, 0, 0], "2 high"⟩) :=
  evaluate_hand_constant_on_documented_cards
    [('A', 'h'), ('K', 'd'), ('Q', 'c'), ('J', 's'), ('T', 'c')]
    [('2', 'h'), ('7', 'd'), ('4', 'c'), ('5', 's'), ('9', 'c')]
    (by decide) (by decide) (by decide) (by decide)

/-- C6: the `HandRank` comparison is a strict total order — it compares
category first, then the tie-break vector lexicographically; it is
asymmetric and transitive; any two ranks are comparable or agree on both
fields; and ranks with equal category and tie-break vector compare as equal
(`__eq__` true, `__lt__` false both ways), never strictly ordered. -/
theorem handrank_total_order :
    (∀ a b : HandRank, hrLt a b = true → hrLt b a = false) ∧
    (∀ a b c : HandRank, hrLt a b = true → hrLt b c = true → hrLt a c = true) ∧
    (∀ a b : HandRank, hrLt a b = true ∨ hrLt b a = true ∨
      (a.category = b.category ∧ a.rank_values = b.rank_values)) ∧
    (∀ a b : HandRank, a.category = b.category → a.rank_values = b.rank_values →
      hrEq a b = true ∧ hrLt a b = false ∧ hrLt b a = false) := by
  refine ⟨hrLt_asymm, hrLt_trans, hrLt_trich, fun a b h1 h2 => ⟨?_, ?_, ?_⟩⟩
  · simp [hrEq, h1, h2]
  · rw [← hrLt_congr_right a a b h1 h2]
    exact hrLt_irrefl a
  · rw [← hrLt_congr_right b b a h1.symm h2.symm]
    exact hrLt_irrefl b

/-- Witness for C6 at concrete `HandRank` values, including two ranks that
differ only in their description label. -/
theorem handrank_total_order_witness :
    hrLt ⟨1, [0], "y"⟩ ⟨0, [1], "x"⟩ = false ∧
    hrLt ⟨0, [1], "a"⟩ ⟨2, [0], "b"⟩ = true ∧
    hrEq ⟨3, [5, 2], "p"⟩ ⟨3, [5, 2], "q"⟩ = true ∧
    hrLt ⟨3, [5, 2], "p"⟩ ⟨3, [5, 2], "q"⟩ = false :=
  ⟨handrank_total_order.1 ⟨0, [1], "x"⟩ ⟨1, [0], "y"⟩ (by decide),
   handrank_total_order.2.1 ⟨0, [1], "a"⟩ ⟨1, [], "c"⟩ ⟨2, [0], "b"⟩ (by decide) (by decide),
   (handrank_total_order.2.2.2 ⟨3, [5, 2], "p"⟩ ⟨3, [5, 2], "q"⟩ rfl rfl).1,
   (handrank_total_order.2.2.2 ⟨3, [5, 2], "p"⟩ ⟨3, [5, 2], "q"⟩ rfl rfl).2.1⟩

/-- C5: on 7-card inputs with no duplicates the evaluation returns exactly
the maximum, under the `HandRank` order, of the 5-card evaluation over all
C(7,5) = 21 five-card subsets, and likewise for 6-card inputs over all
C(6,5) = 6 subsets: the returned rank is one of the subset evaluations and
no subset evaluates strictly higher. -/
theorem evaluate_brute_force_max :
    (∀ cards : List Nat, cards.length = 7 → cards.Nodup →
      (combos 5 cards).length = 21 ∧
      ∃ hr, evaluate_7_cards cards = some hr ∧
        (∃ c ∈ combos 5 cards, evaluate_5_cards c = hr) ∧
        ∀ c ∈ combos 5 cards, hrLt hr (evaluate_5_cards c) = false) ∧
    (∀ cards : List Nat, cards.length = 6 → cards.Nodup →
      (combos 5 cards).length = 6 ∧
      ∃ hr, evaluate_6_cards cards = some hr ∧
        (∃ c ∈ combos 5 cards, evaluate_5_cards c = hr) ∧
        ∀ c ∈ combos 5 cards, hrLt hr (evaluate_5_cards c) = false) := by
  constructor
  · intro cards h7 _
    have hlen : (combos 5 cards).length = 21 := by
      rw [combos_length, h7]
      decide
    have hne : combos 5 cards ≠ [] := by
      intro h
      rw [h] at hlen
      simp at hlen
    obtain ⟨hr, hfold, hmem, hge⟩ := bestFold_spec _ hne
    exact ⟨hlen, hr, hfold, hmem, hge⟩
  · intro cards h6 _
    have hlen : (combos 5 cards).length = 6 := by
      rw [combos_length, h6]
      decide
    have hne : combos 5 cards ≠ [] := by
      intro h
      rw [h] at hlen
      simp at hlen
    obtain ⟨hr, hfold, hmem, hge⟩ := bestFold_spec _ hne
    exact ⟨hlen, hr, hfold, hmem, hge⟩

/-- Witness for C5 at a concrete duplicate-free 7-card and 6-card input. -/
theorem evaluate_brute_force_max_witness :
    ((combos 5 [4096, 4097, 4098, 4099, 4100, 8192, 8193]).length = 21 ∧
      ∃ hr, evaluate_7_cards [4096, 4097, 4098, 4099, 4100, 8192, 8193] = some hr ∧
        (∃ c ∈ combos 5 [4096, 4097, 4098, 4099, 4100, 8192, 8193],
          evaluate_5_cards c = hr) ∧
        ∀ c ∈ combos 5 [4096, 4097, 4098, 4099, 4100, 8192, 8193],
          hrLt hr (evaluate_5_cards c) = false) ∧
    ((combos 5 [4096, 4097, 4098, 4099, 8204, 8193]).length = 6 ∧
      ∃ hr, evaluate_6_cards [4096, 4097, 4098, 4099, 8204, 8193] = some hr ∧
        (∃ c ∈ combos 5 [4096, 4097, 4098, 4099, 8204, 8193],
          evaluate_5_cards c = hr) ∧
        ∀ c ∈ combos 5 [4096, 4097, 4098, 4099, 8204, 8193],
          hrLt hr (evaluate_5_cards c) = false) :=
  ⟨evaluate_brute_force_max.1 [4096, 4097, 4098, 4099, 4100, 8192, 8193]
      (by decide) (by decide),
   evaluate_brute_force_max.2 [4096, 4097, 4098, 4099, 8204, 8193]
      (by decide) (by decide)⟩

set_option maxRecDepth 8000 in
/-- C10: the 5-card hand A-2-3-4-5 in any mix of suits that is not a flush
evaluates as a straight (category 4) with tie-break `[3]`, the rank value
naming the five (`rank_name 3 = "5"`), and `_check_straight` reports the
wheel as 5-high — never as an ace-high straight. -/
theorem wheel_straight_five_high :
    (∀ s1 s2 s3 s4 s5 : Fin 4, ¬(s1 = s2 ∧ s1 = s3 ∧ s1 = s4 ∧ s1 = s5) →
      evaluate_5_cards [cardCode 12 s1.val, cardCode 0 s2.val, cardCode 1 s3.val,
          cardCode 2 s4.val, cardCode 3 s5.val] =
        ⟨4, [3], "Straight, 5 high"⟩ ∧
      check_straight [cardCode 12 s1.val, cardCode 0 s2.val, cardCode 1 s3.val,
          cardCode 2 s4.val, cardCode 3 s5.val] = some 3) ∧
    rank_name 3 = "5" ∧ rank_name 12 = "A" ∧ (3 : Nat) ≠ 12 :=
  ⟨by decide, by decide, by decide, by decide⟩

/-- Witness for C10 at a concrete mixed-suit wheel (ace of hearts, rest
spades). -/
theorem wheel_straight_five_high_witness :
    evaluate_5_cards [cardCode 12 1, cardCode 0 0, cardCode 1 0,
        cardCode 2 0, cardCode 3 0] = ⟨4, [3], "Straight, 5 high"⟩ ∧
    check_straight [cardCode 12 1, cardCode 0 0, cardCode 1 0,
        cardCode 2 0, cardCode 3 0] = some 3 :=
  wheel_straight_five_high.1 1 0 0 0 0 (by decide)

/-- C4 counterexample: at the spec's own boundary case equity = 0.95 (with
pot odds 0.2, where the baseline policy recommends Bet with confidence
0.90), the code classifies urgency as Medium, not High — the High tier
requires `equity > 0.95` strictly, not `equity ≥ 0.95` as claimed. -/
theorem urgency_boundary_equity_95_counterexample :
    (generate_recommendation (95 / 100) (2 / 10)).action = ActionType.bet ∧
    (generate_recommendation (95 / 100) (2 / 10)).confidence = 9 / 10 ∧
    ((95 : ℚ) / 100 ≥ 95 / 100) ∧
    calculate_urgency (generate_recommendation (95 / 100) (2 / 10)).action
        (95 / 100) (generate_recommendation (95 / 100) (2 / 10)).confidence
        (2 / 10) = UrgencyLevel.medium ∧
    UrgencyLevel.medium ≠ UrgencyLevel.high := by
  have hrec : generate_recommendation (95 / 100) (2 / 10) =
      { action := ActionType.bet, confidence := 9 / 10,
        reasoning := "Strong hand - value betting",
        expectedValue := 95 / 100 - 5 / 10, riskAssessment := "Medium" } := by
    unfold generate_recommendation
    norm_num
  refine ⟨by rw [hrec], by rw [hrec], le_refl _, ?_, by decide⟩
  rw [hrec]
  unfold calculate_urgency
  norm_num
  decide

/-- C4 (amended): the urgency tier is High iff the recommended action is
AllIn or equity is strictly above 0.95 or strictly below 0.05 (the
boundaries themselves do not reach High); else Medium iff confidence > 0.8
or pot odds > 0.4; else Low iff confidence > 0.6; else Critical. -/
theorem calculate_urgency_tier_characterization
    (action : ActionType) (equity confidence potOdds : ℚ) :
    (calculate_urgency action equity confidence potOdds = UrgencyLevel.high ↔
      (action = ActionType.allIn ∨ equity > 95 / 100 ∨ equity < 5 / 100)) ∧
    (calculate_urgency action equity confidence potOdds = UrgencyLevel.medium ↔
      (¬(action = ActionType.allIn ∨ equity > 95 / 100 ∨ equity < 5 / 100) ∧
        (confidence > 8 / 10 ∨ potOdds > 4 / 10))) ∧
    (calculate_urgency action equity confidence potOdds = UrgencyLevel.low ↔
      (¬(action = ActionType.allIn ∨ equity > 95 / 100 ∨ equity < 5 / 100) ∧
        ¬(confidence > 8 / 10 ∨ potOdds > 4 / 10) ∧ confidence > 6 / 10)) ∧
    (calculate_urgency action equity confidence potOdds = UrgencyLevel.critical ↔
      (¬(action = ActionType.allIn ∨ equity > 95 / 100 ∨ equity < 5 / 100) ∧
        ¬(confidence > 8 / 10 ∨ potOdds > 4 / 10) ∧ ¬(confidence > 6 / 10))) := by
  unfold calculate_urgency
  split_ifs with h1 h2 h3 <;>
    simp_all

/-- C8: the decision baseline policy — equity > 0.70 gives Bet with
confidence 0.90; 0.50 < equity ≤ 0.70 gives Call with confidence 0.70;
equity ≤ 0.50 with pot odds > 0.30 gives Call with confidence 0.60;
otherwise Fold with confidence 0.80; and the reported expected value equals
equity − 0.5, positive iff equity > 0.5. -/
theorem generate_recommendation_baseline_policy (equity potOdds : ℚ) :
    (equity > 7 / 10 →
      (generate_recommendation equity potOdds).action = ActionType.bet ∧
      (generate_recommendation equity potOdds).confidence = 9 / 10) ∧
    (1 / 2 < equity ∧ equity ≤ 7 / 10 →
      (generate_recommendation equity potOdds).action = ActionType.call ∧
      (generate_recommendation equity potOdds).confidence = 7 / 10) ∧
    (equity ≤ 1 / 2 ∧ potOdds > 3 / 10 →
      (generate_recommendation equity potOdds).action = ActionType.call ∧
      (generate_recommendation equity potOdds).confidence = 6 / 10) ∧
    (equity ≤ 1 / 2 ∧ potOdds ≤ 3 / 10 →
      (generate_recommendation equity potOdds).action = ActionType.fold ∧
      (generate_recommendation equity potOdds).confidence = 8 / 10) ∧
    (generate_recommendation equity potOdds).expectedValue = equity - 5 / 10 ∧
    (0 < (generate_recommendation equity potOdds).expectedValue ↔ 1 / 2 < equity) := by
  unfold generate_recommendation
  split_ifs with h1 h2 h3 <;>
    refine ⟨?_, ?_, ?_, ?_, rfl, by constructor <;> intro <;> linarith⟩ <;>
      first
        | exact fun _ => ⟨rfl, rfl⟩
        | (intro h; exfalso; linarith)

/-- Witness for C8: a strong hand (equity 0.8) is a Bet at confidence 0.9,
and a weak hand with poor pot odds (equity 0.3, pot odds 0.1) is a Fold at
confidence 0.8. -/
theorem generate_recommendation_baseline_policy_witness :
    ((generate_recommendation (8 / 10) 0).action = ActionType.bet ∧
      (generate_recommendation (8 / 10) 0).confidence = 9 / 10) ∧
    ((generate_recommendation (3 / 10) (1 / 10)).action = ActionType.fold ∧
      (generate_recommendation (3 / 10) (1 / 10)).confidence = 8 / 10) :=
  ⟨(generate_recommendation_baseline_policy (8 / 10) 0).1 (by norm_num),
   (generate_recommendation_baseline_policy (3 / 10) (1 / 10)).2.2.2.1
     ⟨by norm_num, by norm_num⟩⟩

/-- C9: any internal error raised inside the analysis/synthesis cycle is
caught — `analyze_hand` still returns a `HandAnalysis` whose recommendation
is Fold with confidence 1.0 and a rationale describing the error, and a
non-raising cycle's analysis passes through unchanged; no exception
propagates to the caller (the embedding's return type is `HandAnalysis`,
not an `Except`). -/
theorem analyze_hand_error_fail_safe :
    (∀ (e : String) (t : ℚ),
      (analyze_hand (.error e) t).recommendation.action = ActionType.fold ∧
      (analyze_hand (.error e) t).recommendation.confidence = 1 ∧
      (analyze_hand (.error e) t).recommendation.reasoning =
        "Analysis error: " ++ e) ∧
    (∀ (a : HandAnalysis) (t : ℚ), analyze_hand (.ok a) t = a) :=
  ⟨fun _ _ => ⟨rfl, rfl, rfl⟩, fun _ _ => rfl⟩

/-- C3 counterexample: with two captured and unconsumed frames — first a
failed (error-tagged) capture, then a successful one — `get_latest_frame`
returns the failed, older frame: the queue is FIFO (`get_nowait` pops the
oldest entry) and failed captures are enqueued like any other. -/
theorem get_latest_frame_returns_oldest_counterexample :
    let f1 : CaptureResult :=
      ⟨none, 0, ⟨0, 0, 0, 0, 0⟩, false, some "capture failed"⟩
    let f2 : CaptureResult := ⟨some 2, 1, ⟨0, 0, 0, 0, 0⟩, true, none⟩
    (get_latest_frame (enqueue_frame (enqueue_frame [] 10 f1) 10 f2)).1 = some f1 ∧
    f1.success = false ∧ f2.success = true ∧ f1 ≠ f2 := by
  refine ⟨rfl, rfl, rfl, ?_⟩
  intro h
  simp at h

/-- C3 (amended): `get_latest_frame` never blocks and returns `None` when
the queue is empty, but on a nonempty queue it returns the oldest
unconsumed frame (FIFO order), whether or not its capture succeeded; the
newest frame sits at the back of the bounded queue, whose length never
exceeds the configured capacity under the drop-oldest enqueue step. -/
theorem get_latest_frame_fifo :
    (∀ q : List CaptureResult,
      (get_latest_frame q).1 = q.head? ∧ (get_latest_frame q).2 = q.tail) ∧
    (∀ (q : List CaptureResult) (cap : Nat) (r : CaptureResult),
      0 < cap → q.length ≤ cap →
      (enqueue_frame q cap r).length ≤ cap ∧
      (enqueue_frame q cap r).getLast? = some r) := by
  constructor
  · intro q
    cases q <;> simp [get_latest_frame, get_nowait]
  · intro q cap r hcap hlen
    unfold enqueue_frame put_nowait get_nowait
    by_cases hfull : q.length < cap
    · simp only [hfull, or_true, if_true]
      constructor
      · simpa using hfull
      · exact List.getLast?_concat q
    · have hcap0 : ¬(cap = 0) := by omega
      have hq : q.length = cap := by omega
      cases q with
      | nil =>
        simp at hq
        omega
      | cons x xs =>
        simp only [hcap0, hfull, or_self, if_false, false_or, if_neg]
        have hxs : xs.length < cap := by
          simp at hq
          omega
        simp only [hxs, or_true, if_true]
        constructor
        · simp
          omega
        · exact List.getLast?_concat xs

/-- Witness for C3 at a concrete frame and capacity: one enqueue into an
empty single-slot queue keeps the length bound and leaves the new frame
retrievable at the back. -/
theorem get_latest_frame_fifo_witness :
    (enqueue_frame [] 1 ⟨some 7, 0, ⟨0, 0, 0, 0, 0⟩, true, none⟩).length ≤ 1 ∧
    (enqueue_frame [] 1 ⟨some 7, 0, ⟨0, 0, 0, 0, 0⟩, true, none⟩).getLast? =
      some ⟨some 7, 0, ⟨0, 0, 0, 0, 0⟩, true, none⟩ :=
  get_latest_frame_fifo.2 [] 1 ⟨some 7, 0, ⟨0, 0, 0, 0, 0⟩, true, none⟩
    (by decide) (by decide)

/-- The best-by-confidence fold keeps a member whose confidence dominates
the accumulator and every scanned element. -/
theorem maxByConf_go (ds : List CardDetectionResult) :
    ∀ b : CardDetectionResult,
      (ds.foldl (fun b x => if x.confidence > b.confidence then x else b) b = b ∨
        ds.foldl (fun b x => if x.confidence > b.confidence then x else b) b ∈ ds) ∧
      b.confidence ≤
        (ds.foldl (fun b x => if x.confidence > b.confidence then x else b) b).confidence ∧
      ∀ x ∈ ds, x.confidence ≤
        (ds.foldl (fun b x => if x.confidence > b.confidence then x else b) b).confidence := by
  induction ds with
  | nil => exact fun b => ⟨Or.inl rfl, le_refl _, by simp⟩
  | cons x xs ih =>
    intro b
    by_cases hx : x.confidence > b.confidence
    · obtain ⟨hmem, hble, hall⟩ := ih x
      refine ⟨?_, ?_, ?_⟩
      · simp only [List.foldl_cons, if_pos hx]
        rcases hmem with h | h
        · exact Or.inr (by rw [h]; exact List.mem_cons_self x xs)
        · exact Or.inr (List.mem_cons_of_mem x h)
      · simp only [List.foldl_cons, if_pos hx]
        exact le_trans (le_of_lt hx) hble
      · intro y hy
        simp only [List.foldl_cons, if_pos hx]
        rcases List.mem_cons.mp hy with rfl | hy'
        · exact hble
        · exact hall y hy'
    · obtain ⟨hmem, hble, hall⟩ := ih b
      refine ⟨?_, ?_, ?_⟩
      · simp only [List.foldl_cons, if_neg hx]
        rcases hmem with h | h
        · exact Or.inl h
        · exact Or.inr (List.mem_cons_of_mem x h)
      · simp only [List.foldl_cons, if_neg hx]
        exact hble
      · intro y hy
        simp only [List.foldl_cons, if_neg hx]
        rcases List.mem_cons.mp hy with rfl | hy'
        · exact le_trans (le_of_not_lt hx) hble
        · exact hall y hy'

/-- Applying `maxByConfidence` to a nonempty group returns a member with maximal
confidence (the Python `max(group, key=...)`). -/
theorem maxByConfidence_spec (d : CardDetectionResult) (ds : List CardDetectionResult) :
    ∃ best, maxByConfidence (d :: ds) = some best ∧ best ∈ d :: ds ∧
      ∀ x ∈ d :: ds, x.confidence ≤ best.confidence := by
  obtain ⟨hmem, hble, hall⟩ := maxByConf_go ds d
  refine ⟨_, rfl, ?_, ?_⟩
  · rcases hmem with h | h
    · rw [h]; exact List.mem_cons_self d ds
    · exact List.mem_cons_of_mem d h
  · intro x hx
    rcases List.mem_cons.mp hx with rfl | hx'
    · exact hble
    · exact hall x hx'

/-- Two detections in the same group of the greedy grouping share the card
identity: appending an agreeing detection preserves the invariant. -/
theorem addToFirstGroup_invariant (d : CardDetectionResult) :
    ∀ (groups gs : List (List CardDetectionResult)),
      (∀ g ∈ groups, ∀ a ∈ g, ∀ b ∈ g, a.rank = b.rank ∧ a.suit = b.suit) →
      addToFirstGroup d groups = some gs →
      ∀ g ∈ gs, ∀ a ∈ g, ∀ b ∈ g, a.rank = b.rank ∧ a.suit = b.suit := by
  intro groups
  induction groups with
  | nil => intro gs _ h; simp [addToFirstGroup] at h
  | cons g rest ih =>
    intro gs hinv h
    unfold addToFirstGroup at h
    by_cases hany : g.any (fun e => detectionAgrees d e) = true
    · rw [if_pos hany] at h
      obtain rfl : (g ++ [d]) :: rest = gs := Option.some.inj h
      obtain ⟨e, he, hagree⟩ := List.any_eq_true.mp hany
      have hcs : d.rank = e.rank ∧ d.suit = e.suit := by
        simp [detectionAgrees, detCardString, Prod.ext_iff] at hagree
        exact ⟨hagree.1.1, hagree.1.2⟩
      have hg : ∀ a ∈ g, ∀ b ∈ g, a.rank = b.rank ∧ a.suit = b.suit :=
        hinv g (List.mem_cons_self g rest)
      intro g' hg' a ha b hb
      rcases List.mem_cons.mp hg' with rfl | hrest
      · have key : ∀ x ∈ g ++ [d], x.rank = d.rank ∧ x.suit = d.suit ∨ x = d := by
          intro x hx
          rcases List.mem_append.mp hx with hx' | hx''
          · exact Or.inl ⟨(hg x hx' e he).1.trans hcs.1.symm,
              (hg x hx' e he).2.trans hcs.2.symm⟩
          · exact Or.inr (List.mem_singleton.mp hx'')
        rcases key a ha with ⟨har, has⟩ | rfl <;>
          rcases key b hb with ⟨hbr, hbs⟩ | rfl
        · exact ⟨har.trans hbr.symm, has.trans hbs.symm⟩
        · exact ⟨har, has⟩
        · exact ⟨hbr.symm, hbs.symm⟩
        · exact ⟨rfl, rfl⟩
      · exact hinv g' (List.mem_cons_of_mem g hrest) a ha b hb
    · rw [if_neg hany] at h
      cases hrec : addToFirstGroup d rest with
      | none => rw [hrec] at h; simp at h
      | some gs' =>
        rw [hrec] at h
        obtain rfl : g :: gs' = gs := Option.some.inj h
        intro g' hg' a ha b hb
        rcases List.mem_cons.mp hg' with rfl | hrest
        · exact hinv g' (List.mem_cons_self g' rest) a ha b hb
        · exact ih gs' (fun x hx => hinv x (List.mem_cons_of_mem g hx)) hrec
            g' hrest a ha b hb

/-- The greedy grouping of `_merge_detections` never puts two detections
with different card identities into one group. -/
theorem buildGroups_same_card (dets : List CardDetectionResult) :
    ∀ g ∈ buildGroups dets, ∀ a ∈ g, ∀ b ∈ g,
      a.rank = b.rank ∧ a.suit = b.suit := by
  unfold buildGroups
  suffices h : ∀ (l : List CardDetectionResult)
      (groups : List (List CardDetectionResult)),
      (∀ g ∈ groups, ∀ a ∈ g, ∀ b ∈ g, a.rank = b.rank ∧ a.suit = b.suit) →
      ∀ g ∈ l.foldl insertDetection groups, ∀ a ∈ g, ∀ b ∈ g,
        a.rank = b.rank ∧ a.suit = b.suit by
    exact h dets [] (by simp)
  intro l
  induction l with
  | nil => intro groups hinv; simpa using hinv
  | cons d ds ih =>
    intro groups hinv
    simp only [List.foldl_cons]
    apply ih
    unfold insertDetection
    cases hadd : addToFirstGroup d groups with
    | none =>
      intro g hg
      rcases List.mem_append.mp hg with hg' | hg''
      · exact hinv g hg'
      · obtain rfl : g = [d] := List.mem_singleton.mp hg''
        intro a ha b hb
        obtain rfl := List.mem_singleton.mp ha
        obtain rfl := List.mem_singleton.mp hb
        exact ⟨rfl, rfl⟩
    | some gs => exact addToFirstGroup_invariant d groups gs hinv hadd

/-- C7 counterexample: two agreeing detections of the same card at x = 0
and x = 1 fuse into a consensus whose x-position is `int(0.5) = 0`, not the
arithmetic mean 1/2 — the consensus position is the integer truncation of
the mean, not the mean itself. -/
theorem consensus_position_not_mean_counterexample :
    let d1 : CardDetectionResult := ⟨'A', 'h', 8 / 10, (0, 0), (0, 0, 0, 0), "template"⟩
    let d2 : CardDetectionResult := ⟨'A', 'h', 9 / 10, (1, 0), (0, 0, 0, 0), "yolo"⟩
    ∃ c, create_consensus_detection [d1, d2] = some c ∧
      c.position.1 = 0 ∧
      ((d1.position.1 : ℚ) + (d2.position.1 : ℚ)) / 2 = 1 / 2 ∧
      (c.position.1 : ℚ) ≠ ((d1.position.1 : ℚ) + (d2.position.1 : ℚ)) / 2 := by
  refine ⟨⟨'A', 'h', 1, (0, 0), (0, 0, 0, 0), "hybrid"⟩, ?_, rfl, by norm_num, by norm_num⟩
  unfold create_consensus_detection maxByConfidence
  norm_num
  intro h
  rw [List.dedup_cons_of_not_mem (by decide), List.dedup_cons_of_not_mem (by decide),
    List.dedup_nil] at h
  simp at h

/-- C7 (amended): every cluster of two or more agreeing detections fuses
into exactly one consensus detection whose position is the component-wise
integer truncation of the arithmetic mean of member positions (not the
exact mean), whose confidence is min(1, best-member confidence +
(clusterSize − 1) · 0.1) and dominates every member confidence (members
have confidence ≤ 1), and whose strategy tag is "hybrid" exactly when the
members carry more than one distinct strategy tag (members being raw
"template"/"yolo" detections, never themselves tagged "hybrid"); and the
greedy grouping never merges two detections with different (rank, suit),
regardless of position. -/
theorem consensus_detection_properties :
    (∀ (d : CardDetectionResult) (ds : List CardDetectionResult),
      2 ≤ (d :: ds).length →
      (∀ x ∈ d :: ds, x.confidence ≤ 1) →
      ∃ best c, maxByConfidence (d :: ds) = some best ∧
        create_consensus_detection (d :: ds) = some c ∧
        c.position = (((d :: ds).map (·.position.1)).sum / (d :: ds).length,
          ((d :: ds).map (·.position.2)).sum / (d :: ds).length) ∧
        c.confidence =
          min 1 (best.confidence + (((d :: ds).length - 1 : Nat) : ℚ) * (1 / 10)) ∧
        (∀ x ∈ d :: ds, x.confidence ≤ c.confidence) ∧
        (1 < ((d :: ds).map (·.detectionMethod)).dedup.length →
          c.detectionMethod = "hybrid") ∧
        (((d :: ds).map (·.detectionMethod)).dedup.length ≤ 1 →
          c.detectionMethod = best.detectionMethod) ∧
        ((∀ x ∈ d :: ds, x.detectionMethod ≠ "hybrid") →
          (c.detectionMethod = "hybrid" ↔
            1 < ((d :: ds).map (·.detectionMethod)).dedup.length))) ∧
    (∀ dets : List CardDetectionResult, ∀ g ∈ buildGroups dets, ∀ a ∈ g, ∀ b ∈ g,
      a.rank = b.rank ∧ a.suit = b.suit) := by
  refine ⟨?_, buildGroups_same_card⟩
  intro d ds _ hconf
  obtain ⟨best, hmax, hmem, hall⟩ := maxByConfidence_spec d ds
  have hboost : (0 : ℚ) ≤ (((d :: ds).length - 1 : Nat) : ℚ) * (1 / 10) := by
    positivity
  refine ⟨best,
    { rank := best.rank, suit := best.suit,
      confidence := min 1 (best.confidence + (((d :: ds).length - 1 : Nat) : ℚ) * (1 / 10)),
      position := (((d :: ds).map (·.position.1)).sum / (d :: ds).length,
        ((d :: ds).map (·.position.2)).sum / (d :: ds).length),
      boundingBox := best.boundingBox,
      detectionMethod := if ((d :: ds).map (·.detectionMethod)).dedup.length > 1
        then "hybrid" else best.detectionMethod },
    hmax, ?_, rfl, rfl, ?_, ?_, ?_, ?_⟩
  · unfold create_consensus_detection
    rw [hmax]
  · intro x hx
    refine le_min (hconf x hx) (le_trans (hall x hx) ?_)
    linarith
  · intro hlen
    simp only [if_pos hlen]
  · intro hlen
    have hne : ¬(((d :: ds).map (·.detectionMethod)).dedup.length > 1) := by omega
    simp only [if_neg hne]
  · intro hnh
    by_cases hlen : ((d :: ds).map (·.detectionMethod)).dedup.length > 1
    · rw [if_pos hlen]
      exact iff_of_true rfl hlen
    · rw [if_neg hlen]
      constructor
      · intro h
        exact absurd h (hnh best hmem)
      · intro h
        exact absurd h hlen

/-- Witness for C7 (amended) at a concrete two-member cluster from two
distinct strategies. -/
theorem consensus_detection_properties_witness :
    ∃ best c, maxByConfidence (c7d1 :: [c7d2]) = some best ∧
      create_consensus_detection (c7d1 :: [c7d2]) = some c ∧
      c.position = (((c7d1 :: [c7d2]).map (·.position.1)).sum / (c7d1 :: [c7d2]).length,
        ((c7d1 :: [c7d2]).map (·.position.2)).sum / (c7d1 :: [c7d2]).length) ∧
      c.confidence =
        min 1 (best.confidence + (((c7d1 :: [c7d2]).length - 1 : Nat) : ℚ) * (1 / 10)) ∧
      (∀ x ∈ c7d1 :: [c7d2], x.confidence ≤ c.confidence) ∧
      (1 < ((c7d1 :: [c7d2]).map (·.detectionMethod)).dedup.length →
        c.detectionMethod = "hybrid") ∧
      (((c7d1 :: [c7d2]).map (·.detectionMethod)).dedup.length ≤ 1 →
        c.detectionMethod = best.detectionMethod) ∧
      ((∀ x ∈ c7d1 :: [c7d2], x.detectionMethod ≠ "hybrid") →
        (c.detectionMethod = "hybrid" ↔
          1 < ((c7d1 :: [c7d2]).map (·.detectionMethod)).dedup.length)) :=
  consensus_detection_properties.1 c7d1 [c7d2] (by decide)
    (by
      intro x hx
      rcases List.mem_cons.mp hx with rfl | hx'
      · norm_num [c7d1]
      · obtain rfl := List.mem_singleton.mp hx'
        norm_num [c7d2])

/-- C2 counterexample: a legal scenario (2 hole cards, 4 community cards,
1 opponent, a genuine permutation of the available deck as the shuffle) in
which the code's trial is scored by the simplified integer scorer as a tie
(both full houses score 6000) while the section-4.2 HandRank engine ranks
the player's aces-full strictly above the opponent's deuces-full: the code
returns equity 1/2 where HandRank-scored trials give 1 — trials are not
evaluated via the section-4.2 HandRank order. -/
theorem equity_not_scored_by_handrank_counterexample :
    c2Shuffle.Perm (available_cards c2Hole c2Community) ∧
    c2Hole.length = 2 ∧ c2Community.length = 4 ∧
    simTrial c2Hole c2Community 1 c2Shuffle = (0, 1) ∧
    specTrialViaHandRank c2Hole c2Community 1 c2Shuffle = (1, 0) ∧
    calculate_equity c2Hole c2Community 1 [c2Shuffle] = 1 / 2 ∧
    equityPerSpecHandRank c2Hole c2Community 1 [c2Shuffle] = 1 ∧
    ((1 : ℚ) / 2 ≠ 1) := by
  have ht : simTrial c2Hole c2Community 1 c2Shuffle = (0, 1) := by decide
  have hs : specTrialViaHandRank c2Hole c2Community 1 c2Shuffle = (1, 0) := by decide
  refine ⟨by decide, by decide, by decide, ht, hs, ?_, ?_, by norm_num⟩
  · unfold calculate_equity
    rw [if_neg (by decide)]
    simp only [List.map_cons, List.map_nil, ht, List.sum_cons, List.sum_nil,
      List.length_cons, List.length_nil]
    norm_num
  · unfold equityPerSpecHandRank
    rw [if_neg (by decide)]
    simp only [List.map_cons, List.map_nil, hs, List.sum_cons, List.sum_nil,
      List.length_cons, List.length_nil]
    norm_num

/-- C2 (amended): for 2 hole cards and N ≥ 1 opponents, each trial is
scored by `EquityCalculator`'s simplified integer hand scorer (not the
section-4.2 HandRank engine); the player wins a trial iff their score is
strictly greatest, a trial whose maximum score is shared with the player
counts as a tie, and the returned equity equals
(wins + 0.5 · ties) / trials. -/
theorem calculate_equity_wins_ties_formula (hole comm : List CardCV) (n : Nat)
    (shuffles : List (List (Char × Char)))
    (hh : hole.length = 2) (_hn : 1 ≤ n) :
    calculate_equity hole comm n shuffles =
      (((shuffles.countP (fun s =>
          decide (trialPlayerScore hole comm n s > trialMaxOpponentScore comm n s))) : ℚ) +
        ((shuffles.countP (fun s =>
          decide (trialPlayerScore hole comm n s = trialMaxOpponentScore comm n s))) : ℚ) *
          (1 / 2)) / (shuffles.length : ℚ) := by
  have key : ∀ L : List (List (Char × Char)),
      ((L.map (simTrial hole comm n)).map (·.1)).sum =
        L.countP (fun s =>
          decide (trialPlayerScore hole comm n s > trialMaxOpponentScore comm n s)) ∧
      ((L.map (simTrial hole comm n)).map (·.2)).sum =
        L.countP (fun s =>
          decide (trialPlayerScore hole comm n s = trialMaxOpponentScore comm n s)) := by
    intro L
    induction L with
    | nil => simp
    | cons s ss ih =>
      simp only [List.map_cons, List.sum_cons, List.countP_cons, ih.1, ih.2]
      unfold simTrial
      by_cases h1 : trialPlayerScore hole comm n s > trialMaxOpponentScore comm n s
      · have h2 : ¬(trialPlayerScore hole comm n s = trialMaxOpponentScore comm n s) := by
          omega
        rw [if_pos h1]
        simp [h1, h2]
        omega
      · by_cases h2 : trialPlayerScore hole comm n s = trialMaxOpponentScore comm n s
        · rw [if_neg h1, if_pos h2]
          simp [h1, h2]
          omega
        · rw [if_neg h1, if_neg h2]
          simp [h1, h2]
  unfold calculate_equity
  rw [if_neg (by omega)]
  simp only [(key shuffles).1, (key shuffles).2]

/-- Witness for C2 (amended) at the concrete single-trial scenario. -/
theorem calculate_equity_wins_ties_formula_witness :
    calculate_equity c2Hole c2Community 1 [c2Shuffle] =
      ((([c2Shuffle].countP (fun s =>
          decide (trialPlayerScore c2Hole c2Community 1 s >
            trialMaxOpponentScore c2Community 1 s))) : ℚ) +
        (([c2Shuffle].countP (fun s =>
          decide (trialPlayerScore c2Hole c2Community 1 s =
            trialMaxOpponentScore c2Community 1 s))) : ℚ) * (1 / 2)) /
        (([c2Shuffle] : List (List (Char × Char))).length : ℚ) :=
  calculate_equity_wins_ties_formula c2Hole c2Community 1 [c2Shuffle]
    (by decide) (by decide)

end PokerHelper
